import Mathlib

/-!
Verification of the Kobo image downloader (src/app1.py).

The development shallowly embeds the core of the program:
  * the URL extractor (find_urls_in_df, the length filter and the
    dict.fromkeys deduplication),
  * the content-type sniffer (detect_extension),
  * the fetcher retry loop (download_one), modelled over an oracle that
    gives the network outcome of each GET attempt,
  * the download coordinator (sequential name assignment and collection
    of outcomes in completion order).

Python strings are modelled as Lean strings and the relevant Python
string methods are defined on the underlying character lists.
-/

set_option maxHeartbeats 1000000

namespace KoboApp

/-- Python str.lower, modelled as mapping Char.toLower over the characters. -/
def pyLower (s : String) : String := String.mk (s.data.map Char.toLower)

/-- Characters stripped by Python str.strip with no argument (whitespace). -/
def isWs (c : Char) : Bool := c.isWhitespace

/-- Python str.strip on a character list: drop leading and trailing whitespace. -/
def stripChars (l : List Char) : List Char :=
  ((l.dropWhile isWs).reverse.dropWhile isWs).reverse

/-- Python str.strip with no argument. -/
def pyStrip (s : String) : String := String.mk (stripChars s.data)

/-- Python str.startswith: the first string is the candidate prefix of the second. -/
def pyStartswith (pre s : String) : Bool := pre.data.isPrefixOf s.data

/-- Test from find_urls_in_df: val.lower().startswith http or https scheme. -/
def startsWithHttp (s : String) : Bool :=
  pyStartswith "http://" (pyLower s) || pyStartswith "https://" (pyLower s)

/-- Body of the inner loop of find_urls_in_df: strip the cell value and
append it when it passes the scheme test (src/app1.py lines 43-45). -/
def cellStep (urls : List String) (val : String) : List String :=
  let v := pyStrip val
  if startsWithHttp v then urls ++ [v] else urls

/-- find_urls_in_df (src/app1.py lines 38-46).  The dataframe is modelled as
its list of columns in column order, each column being the list of its cell
values (already coerced to strings, as astype(str) does) in row order. -/
def find_urls_in_df (df : List (List String)) : List String :=
  df.foldl (fun urls col => col.foldl cellStep urls) []

/-- Filter of src/app1.py line 118: `u and len(u) > 6`. -/
def lenFilter (u : String) : Bool := decide (u ≠ "") && decide (6 < u.length)

/-- One insertion step of dict.fromkeys: keep the key only if unseen. -/
def dedupInsert (acc : List String) (x : String) : List String :=
  if x ∈ acc then acc else acc ++ [x]

/-- list(dict.fromkeys(urls)) (src/app1.py line 119): left-to-right insertion
into an insertion-ordered key sequence, discarding later duplicates. -/
def dictFromKeys (l : List String) : List String := l.foldl dedupInsert []

/-- unique_urls (src/app1.py lines 117-119): extract, filter, deduplicate. -/
def unique_urls (df : List (List String)) : List String :=
  dictFromKeys ((find_urls_in_df df).filter lenFilter)

/-- Specification-side deduplication: keep each string and discard its later
duplicates.  Used to state first-occurrence order. -/
def firstOcc : List String → List String
  | [] => []
  | x :: xs => x :: firstOcc (xs.filter (fun y => y != x))
termination_by l => l.length
decreasing_by
  simp only [List.length_cons]
  exact Nat.lt_succ_of_le (List.length_filter_le _ _)

/-- Modelled from the spec: magic-byte signature detection of the external
filetype library (filetype.guess followed by kind.extension).  The library
matches the leading bytes of the content against fixed signatures and yields
the canonical extension of the detected type; the signatures for PNG, JPEG
and GIF are modelled here.  Returns none when no signature matches, in
particular on empty content. -/
def filetypeGuess (content : List Nat) : Option String :=
  if List.isPrefixOf [0x89, 0x50, 0x4E, 0x47, 0x0D, 0x0A, 0x1A, 0x0A] content then some "png"
  else if List.isPrefixOf [0xFF, 0xD8, 0xFF] content then some "jpg"
  else if List.isPrefixOf [0x47, 0x49, 0x46, 0x38] content then some "gif"
  else none

/-- Modelled from the spec: the standard media-type to extension table of the
Python mimetypes module (a representative fragment).  Values carry the
leading dot, exactly as mimetypes.guess_extension returns them. -/
def mimetypesTable : List (String × String) :=
  [("image/jpeg", ".jpg"), ("image/png", ".png"), ("image/gif", ".gif"),
   ("image/tiff", ".tiff"), ("image/webp", ".webp"), ("image/bmp", ".bmp"),
   ("application/pdf", ".pdf"), ("text/html", ".html"), ("text/plain", ".txt")]

/-- Modelled from the spec: mimetypes.guess_extension, a lookup in the
standard media-type to extension table. -/
def mimetypesGuessExtension (ct : String) : Option String :=
  mimetypesTable.lookup ct

/-- Python str.lstrip with argument a dot: drop every leading dot. -/
def pyLstripDot (s : String) : String := String.mk (s.data.dropWhile (fun c => c == '.'))

/-- Characters allowed in a URL scheme after the leading letter
(urllib.parse.scheme_chars). -/
def isSchemeChar (c : Char) : Bool := c.isAlphanum || c == '+' || c == '-' || c == '.'

/-- Scheme removal step of urllib.parse.urlsplit: when the input has a colon
preceded by a nonempty valid scheme, drop the scheme and the colon. -/
def splitScheme (l : List Char) : List Char :=
  let before := l.takeWhile (fun c => c != ':')
  match l.drop before.length with
  | [] => l
  | _ :: rest =>
    match before with
    | [] => l
    | c0 :: cs => if c0.isAlpha && cs.all isSchemeChar then rest else l

/-- Netloc removal step of urllib.parse.urlsplit: when the remainder begins
with two slashes, drop them and the netloc, which extends to the first
slash, question mark or hash (kept in the remainder). -/
def splitNetloc (l : List Char) : List Char :=
  match l with
  | '/' :: '/' :: rest => rest.dropWhile (fun c => c != '/' && c != '?' && c != '#')
  | _ => l

/-- Path component of urllib.parse.urlparse(url): remove scheme, netloc,
fragment and query, in the order urlsplit processes them. -/
def urlparsePath (url : String) : String :=
  let l := splitScheme url.data
  let l := splitNetloc l
  let l := l.takeWhile (fun c => c != '#')
  String.mk (l.takeWhile (fun c => c != '?'))

/-- Rightmost index of a character in a list, with Python's convention that a
missing character yields -1 (str.rfind). -/
def pyRfindAux (c : Char) : List Char → Nat → Int → Int
  | [], _, acc => acc
  | x :: xs, i, acc => pyRfindAux c xs (i + 1) (if x = c then (i : Int) else acc)

/-- Python str.rfind for a single character. -/
def pyRfind (c : Char) (l : List Char) : Int := pyRfindAux c l 0 (-1)

/-- Extension part of os.path.splitext: the segment from the last dot to the
end, provided that dot lies after the last slash and some non-dot character
stands between them (genericpath splitext). -/
def splitextExt (p : List Char) : List Char :=
  let sepIndex := pyRfind '/' p
  let dotIndex := pyRfind '.' p
  if sepIndex < dotIndex then
    if ((p.drop (sepIndex + 1).toNat).take (dotIndex - sepIndex - 1).toNat).any
        (fun c => c != '.') then
      p.drop dotIndex.toNat
    else []
  else []

/-- detect_extension (src/app1.py lines 49-64): try the filetype signature,
then the declared content-type with its parameters stripped, then the URL
path extension when present and at most six characters, else the literal
jpg. -/
def detect_extension (content : List Nat) (content_type : String) (url : String) : String :=
  match filetypeGuess content with
  | some ext => ext
  | none =>
    let ctOpt : Option String :=
      if content_type != "" then
        mimetypesGuessExtension (pyStrip (String.mk (content_type.data.takeWhile (fun c => c != ';'))))
      else none
    match ctOpt with
    | some guessed => pyLstripDot guessed
    | none =>
      let ext2 := splitextExt (urlparsePath url).data
      if ext2 != [] && decide (ext2.length ≤ 6) then String.mk (ext2.dropWhile (fun c => c == '.'))
      else "jpg"

/-- Specification-side resolver chain: an ordered list of optional results,
the first populated one winning, with a fallback for an all-empty chain. -/
def chainResolve : List (Option String) → String → String
  | [], fallback => fallback
  | some e :: _, _ => e
  | none :: rest, fallback => chainResolve rest fallback

/-- Specification-side content-type resolver: strip the parameters after the
semicolon, look the media type up, and drop the leading dot of the result. -/
def ctGuessSpec (content_type : String) : Option String :=
  (mimetypesGuessExtension (pyStrip (String.mk (content_type.data.takeWhile (fun c => c != ';'))))).map pyLstripDot

/-- Specification-side URL resolver: the extension of the URL path, accepted
only when present and at most six characters including the dot, dot
stripped. -/
def urlGuessSpec (url : String) : Option String :=
  let ext2 := splitextExt (urlparsePath url).data
  if ext2 != [] && decide (ext2.length ≤ 6) then some (String.mk (ext2.dropWhile (fun c => c == '.')))
  else none

/-- Specification-side sniffer: the ordered chain of claim C4 with the
literal jpg fallback. -/
def detectExtensionSpec (content : List Nat) (content_type : String) (url : String) : String :=
  chainResolve [filetypeGuess content, ctGuessSpec content_type, urlGuessSpec url] "jpg"

/-- Network outcome of one GET attempt: an HTTP response carrying status,
body bytes and Content-Type header (empty string when absent), or a
transport-level exception carrying its message.  Exceptions raised anywhere
inside the try body of download_one are modelled by exc. -/
inductive AttemptOutcome where
  | resp : Nat → List Nat → String → AttemptOutcome
  | exc : String → AttemptOutcome
deriving DecidableEq

/-- Value returned by download_one: the (success, final_name, error)
triple of src/app1.py lines 80 and 86. -/
structure FetchResult where
  success : Bool
  finalName : Option String
  error : Option String
deriving DecidableEq

/-- Observable side effects of one download_one call: number of GET
attempts performed, files written as (path, bytes) pairs, and backoff
sleeps in seconds. -/
structure FetchTrace where
  attempts : Nat
  writes : List (String × List Nat)
  sleeps : List ℚ
deriving DecidableEq

/-- Error text recorded for a failed attempt: the HTTP status text of
src/app1.py line 82 or the exception message of line 84. -/
def failMsg : AttemptOutcome → String
  | .resp status _ _ => "HTTP " ++ toString status
  | .exc m => m

/-- Predicate: this attempt outcome is a failure (non-200 status or
exception). -/
def attemptFailsB : AttemptOutcome → Bool
  | .resp status _ _ => status != 200
  | .exc _ => true

/-- os.path.join for a folder and a file name (posix semantics). -/
def pyPathJoin (folder name : String) : String :=
  if pyStartswith "/" name then name
  else if folder == "" then name
  else if folder.data.getLast? == some '/' then folder ++ name
  else folder ++ "/" ++ name

/-- Loop of download_one (src/app1.py lines 69-85), unrolled over the
remaining attempt count.  The oracle gives the network outcome of the
attempt with the given 0-based number; last_exc threads the last-seen
error.  On a 200 response the body is written under the sniffed name and
the loop returns; otherwise the error is recorded, the backoff sleep of
line 85 runs, and the loop continues. -/
def downloadFrom (oracle : Nat → AttemptOutcome) (url dest_name folder : String) :
    Nat → Nat → Option String → FetchResult × FetchTrace
  | _, 0, last_exc => (⟨false, none, last_exc⟩, ⟨0, [], []⟩)
  | attempt, r + 1, _ =>
    match oracle attempt with
    | .resp status content content_type =>
      if status = 200 then
        let ext := detect_extension content content_type url
        let final_name := dest_name ++ "." ++ ext
        (⟨true, some final_name, none⟩, ⟨1, [(pyPathJoin folder final_name, content)], []⟩)
      else
        let o := downloadFrom oracle url dest_name folder (attempt + 1) r (some ("HTTP " ++ toString status))
        (o.1, ⟨o.2.attempts + 1, o.2.writes, ((1 : ℚ) / 2) * ((attempt : ℚ) + 1) :: o.2.sleeps⟩)
    | .exc m =>
        let o := downloadFrom oracle url dest_name folder (attempt + 1) r (some m)
        (o.1, ⟨o.2.attempts + 1, o.2.writes, ((1 : ℚ) / 2) * ((attempt : ℚ) + 1) :: o.2.sleeps⟩)

/-- download_one (src/app1.py lines 67-86): up to max_retries + 1 attempts
starting at attempt number 0 with no error seen yet. -/
def download_one (oracle : Nat → AttemptOutcome) (url dest_name folder : String)
    (max_retries : Nat) : FetchResult × FetchTrace :=
  downloadFrom oracle url dest_name folder 0 (max_retries + 1) none

/-- Dispatch loop of the coordinator (src/app1.py lines 146-150): walk the
URL list, increment the counter, and pair each URL with its destination
base name bill counter. -/
def dispatchLoop : List String → Int → List (String × String)
  | [], _ => []
  | url :: rest, counter =>
    (url, "bill " ++ toString (counter + 1)) :: dispatchLoop rest (counter + 1)

/-- Name assignment of a run: the counter starts at start_index - 1
(src/app1.py line 142). -/
def dispatchAssignments (urls : List String) (start_index : Int) : List (String × String) :=
  dispatchLoop urls (start_index - 1)

/-- Specification-side name sequence: bill S, bill S+1, ..., bill S+m-1. -/
def billNames (start_index : Int) (m : Nat) : List String :=
  (List.range m).map (fun i : Nat => "bill " ++ toString (start_index + (i : Int)))

/-- One entry of the results list (src/app1.py lines 162 and 165):
(url, final_name, success flag, error). -/
structure OutcomeRec where
  url : String
  finalName : Option String
  ok : Bool
  error : Option String
deriving DecidableEq

/-- Collection step of the as_completed loop (src/app1.py lines 160-165). -/
def mkOutcome (u : String) (r : FetchResult) : OutcomeRec :=
  if r.success then ⟨u, r.finalName, true, none⟩ else ⟨u, none, false, r.error⟩

/-- Result collection of one run (src/app1.py lines 144-165).  perm lists
the dispatch indices in completion order, as as_completed yields them; each
completed task contributes the outcome of fetching its URL under its
assigned destination name. -/
def runCollect (urls : List String) (start_index : Int) (perm : List Nat)
    (fetch : String → String → FetchResult) : List OutcomeRec :=
  perm.filterMap (fun i =>
    ((dispatchAssignments urls start_index).get? i).map
      (fun p => mkOutcome p.1 (fetch p.1 p.2)))

/-- Success partition of the results (src/app1.py lines 171 and 178). -/
def succResults (rs : List OutcomeRec) : List OutcomeRec := rs.filter (fun r => r.ok)

/-- Failure partition of the results (src/app1.py lines 172 and 187). -/
def failResults (rs : List OutcomeRec) : List OutcomeRec := rs.filter (fun r => !r.ok)

/-- Oracle for witnesses: every attempt raises a transport exception whose
message names the attempt. -/
def oracleAllFail : Nat → AttemptOutcome := fun k => .exc ("boom " ++ toString k)

/-- Bytes of a minimal PNG-signature response body. -/
def pngBytes : List Nat := [0x89, 0x50, 0x4E, 0x47, 0x0D, 0x0A, 0x1A, 0x0A, 0, 0]

/-- Oracle for witnesses: every attempt yields a 200 response with a PNG
body. -/
def oracleOk : Nat → AttemptOutcome := fun _ => .resp 200 pngBytes "image/png"

/-- Fetch function for witnesses: every URL fails with a fixed error. -/
def fetchFail : String → String → FetchResult := fun _ _ => ⟨false, none, some "HTTP 404"⟩

/-- Number of GET attempts that fail before the first success, among the
first n attempts starting at the given attempt number: the length of the
initial failing streak the retry loop actually executes. -/
def failCount (oracle : Nat → AttemptOutcome) : Nat → Nat → Nat
  | _, 0 => 0
  | attempt, r + 1 =>
    if attemptFailsB (oracle attempt) then failCount oracle (attempt + 1) r + 1 else 0

/-- Test whether a string begins with a dot character. -/
def headIsDot (s : String) : Bool :=
  match s.data with
  | c :: _ => c == '.'
  | [] => false

/-! Lemmas about the extractor. -/

theorem foldl_cellStep (col : List String) :
    ∀ urls : List String,
      col.foldl cellStep urls = urls ++ (col.map pyStrip).filter startsWithHttp := by
  induction col with
  | nil => intro urls; simp
  | cons v vs ih =>
    intro urls
    simp only [List.foldl_cons, List.map_cons, List.filter_cons]
    rw [ih]
    by_cases h : startsWithHttp (pyStrip v) = true
    · simp [cellStep, h, List.append_assoc]
    · simp only [Bool.not_eq_true] at h
      simp [cellStep, h]

theorem find_urls_foldl (df : List (List String)) :
    ∀ acc : List String,
      df.foldl (fun urls col => col.foldl cellStep urls) acc =
        acc ++ df.flatMap (fun col => (col.map pyStrip).filter startsWithHttp) := by
  induction df with
  | nil => intro acc; simp
  | cons col cols ih =>
    intro acc
    simp only [List.foldl_cons, List.flatMap_cons]
    rw [ih, foldl_cellStep, List.append_assoc]

theorem find_urls_flatMap (df : List (List String)) :
    find_urls_in_df df =
      df.flatMap (fun col => (col.map pyStrip).filter startsWithHttp) := by
  rw [find_urls_in_df, find_urls_foldl]
  simp

/-- C9: the extractor appends the matching stripped cell values in the
traversal order of the table, column after column and, inside a column, row
after row, visiting every cell exactly once: its output is the
concatenation, over the columns in order, of each column's matching
stripped cells in row order. -/
theorem find_urls_in_df_traversal (df : List (List String)) :
    find_urls_in_df df =
      df.flatMap (fun col => (col.map pyStrip).filter startsWithHttp) :=
  find_urls_flatMap df

theorem data_pyLower (s : String) : (pyLower s).data = s.data.map Char.toLower := rfl

theorem length_of_startsWithHttp {s : String} (h : startsWithHttp s = true) :
    6 < s.length ∧ s ≠ "" := by
  have hmap : (pyLower s).data.length = s.data.length := by
    rw [data_pyLower, List.length_map]
  have hlen : 7 ≤ s.data.length := by
    rcases Bool.or_eq_true_iff.mp h with h1 | h1
    · have hp := List.isPrefixOf_iff_prefix.mp h1
      have h7 : ("http://".data).length = 7 := rfl
      have := hp.length_le
      omega
    · have hp := List.isPrefixOf_iff_prefix.mp h1
      have h8 : ("https://".data).length = 8 := rfl
      have := hp.length_le
      omega
  have hne : s.data ≠ [] := by
    intro he
    rw [he] at hlen
    simp at hlen
  refine ⟨hlen, fun he => hne ?_⟩
  rw [he]

theorem mem_find_urls_startsWithHttp {df : List (List String)} {s : String}
    (h : s ∈ find_urls_in_df df) : startsWithHttp s = true ∧ ∃ v, s = pyStrip v := by
  rw [find_urls_flatMap] at h
  rcases List.mem_flatMap.mp h with ⟨col, _, hmem⟩
  rcases List.mem_filter.mp hmem with ⟨hmap, hhttp⟩
  rcases List.mem_map.mp hmap with ⟨v, _, hv⟩
  exact ⟨hhttp, v, hv.symm⟩

/-- C10: the post-extraction length filter of src/app1.py line 118 is the
identity on the extractor's output, because every extracted string starts
case-insensitively with a scheme of at least seven characters. -/
theorem lenFilter_identity (df : List (List String)) :
    (find_urls_in_df df).filter lenFilter = find_urls_in_df df := by
  apply List.filter_eq_self.mpr
  intro s hs
  have hhttp := (mem_find_urls_startsWithHttp hs).1
  have hl := length_of_startsWithHttp hhttp
  simp [lenFilter, hl.1, hl.2]

/-! Deduplication lemmas. -/

theorem dictFromKeys_go (l : List String) :
    ∀ acc : List String,
      l.foldl dedupInsert acc = acc ++ firstOcc (l.filter (fun x => decide (¬ x ∈ acc))) := by
  induction l with
  | nil => intro acc; simp [firstOcc]
  | cons x xs ih =>
    intro acc
    simp only [List.foldl_cons]
    by_cases hx : x ∈ acc
    · have hd : dedupInsert acc x = acc := by simp [dedupInsert, hx]
      have hf : (x :: xs).filter (fun y => decide (¬ y ∈ acc)) =
          xs.filter (fun y => decide (¬ y ∈ acc)) := by
        simp [List.filter_cons, hx]
      rw [hd, ih, hf]
    · have hd : dedupInsert acc x = acc ++ [x] := by simp [dedupInsert, hx]
      have hf : (x :: xs).filter (fun y => decide (¬ y ∈ acc)) =
          x :: xs.filter (fun y => decide (¬ y ∈ acc)) := by
        simp [List.filter_cons, hx]
      rw [hd, ih, hf, firstOcc]
      have hfe : xs.filter (fun y => decide (¬ y ∈ acc ++ [x])) =
          (xs.filter (fun y => decide (¬ y ∈ acc))).filter (fun y => y != x) := by
        rw [List.filter_filter]
        apply List.filter_congr
        intro y _
        by_cases h1 : y ∈ acc <;> by_cases h2 : y = x <;> simp [h1, h2]
      rw [hfe, List.append_assoc]
      simp

/-- dict.fromkeys realizes the keep-first-occurrence specification. -/
theorem dictFromKeys_eq_firstOcc (l : List String) : dictFromKeys l = firstOcc l := by
  rw [dictFromKeys, dictFromKeys_go]
  simp

theorem firstOcc_sublist_nodup :
    ∀ (n : Nat) (l : List String), l.length ≤ n →
      (firstOcc l).Sublist l ∧ (firstOcc l).Nodup := by
  intro n
  induction n with
  | zero =>
    intro l hl
    have : l = [] := List.length_eq_zero.mp (Nat.le_zero.mp hl)
    subst this
    simp [firstOcc]
  | succ n ih =>
    intro l hl
    match l with
    | [] => simp [firstOcc]
    | x :: xs =>
      rw [firstOcc]
      have hlen : (xs.filter (fun y => y != x)).length ≤ n := by
        have h1 := List.length_filter_le (fun y => y != x) xs
        simp only [List.length_cons] at hl
        omega
      obtain ⟨hsub, hnd⟩ := ih _ hlen
      have hsub2 : (firstOcc (xs.filter (fun y => y != x))).Sublist xs :=
        hsub.trans (List.filter_sublist xs)
      refine ⟨hsub2.cons₂ x, List.nodup_cons.mpr ⟨?_, hnd⟩⟩
      intro hmem
      have hx := hsub.subset hmem
      have := List.of_mem_filter hx
      simp at this

theorem firstOcc_sublist (l : List String) : (firstOcc l).Sublist l :=
  (firstOcc_sublist_nodup l.length l le_rfl).1

theorem firstOcc_nodup (l : List String) : (firstOcc l).Nodup :=
  (firstOcc_sublist_nodup l.length l le_rfl).2

/-! Idempotence of the strip operation. -/

theorem head?_dropWhile_false {p : Char → Bool} :
    ∀ {l : List Char} {a : Char}, (l.dropWhile p).head? = some a → p a = false := by
  intro l
  induction l with
  | nil => intro a h; simp [List.dropWhile] at h
  | cons x xs ih =>
    intro a h
    by_cases hp : p x = true
    · rw [List.dropWhile_cons_of_pos hp] at h
      exact ih h
    · simp only [Bool.not_eq_true] at hp
      rw [List.dropWhile_cons_of_neg (by simp [hp])] at h
      simp only [List.head?_cons, Option.some.injEq] at h
      rw [← h]
      exact hp

theorem dropWhile_of_head?_false {p : Char → Bool} {l : List Char}
    (h : ∀ a, l.head? = some a → p a = false) : l.dropWhile p = l := by
  match l with
  | [] => rfl
  | x :: xs =>
    have := h x rfl
    rw [List.dropWhile_cons_of_neg (by simp [this])]

theorem getLast?_dropWhile {p : Char → Bool} :
    ∀ l : List Char, l.dropWhile p ≠ [] → (l.dropWhile p).getLast? = l.getLast? := by
  intro l
  induction l with
  | nil => intro h; simp [List.dropWhile] at h
  | cons x xs ih =>
    intro h
    by_cases hp : p x = true
    · rw [List.dropWhile_cons_of_pos hp] at h ⊢
      have hxs : xs ≠ [] := by
        intro he
        subst he
        simp [List.dropWhile] at h
      rw [ih h]
      match xs, hxs with
      | y :: ys, _ => simp [List.getLast?_cons_cons]
    · simp only [Bool.not_eq_true] at hp
      rw [List.dropWhile_cons_of_neg (by simp [hp])]

theorem stripChars_idem (l : List Char) : stripChars (stripChars l) = stripChars l := by
  unfold stripChars
  set a := l.dropWhile isWs with ha
  set b := a.reverse.dropWhile isWs with hb
  have hheadb : ∀ c, b.head? = some c → isWs c = false := fun c hc => head?_dropWhile_false hc
  have hheada : ∀ c, a.head? = some c → isWs c = false := fun c hc => head?_dropWhile_false hc
  by_cases hbn : b = []
  · rw [hbn]
    simp
  · have h1 : b.reverse.reverse.dropWhile isWs = b := by
      rw [List.reverse_reverse]
      exact dropWhile_of_head?_false hheadb
    have h2 : b.reverse.dropWhile isWs = b.reverse := by
      apply dropWhile_of_head?_false
      intro c hc
      rw [List.head?_reverse] at hc
      have hgl : b.getLast? = a.reverse.getLast? := getLast?_dropWhile a.reverse hbn
      rw [hgl, List.getLast?_reverse] at hc
      exact hheada c hc
    rw [h2, h1]

theorem pyStrip_idem (s : String) : pyStrip (pyStrip s) = pyStrip s := by
  show String.mk (stripChars (stripChars s.data)) = String.mk (stripChars s.data)
  rw [stripChars_idem]

/-- C2: the deduplicated extractor output contains only strings that, after
stripping, begin case-insensitively with an http or https scheme, each of
length greater than six and nonempty, without duplicates, and keeps the
filtered raw list's first occurrences in traversal order. -/
theorem extractor_output_spec (df : List (List String)) :
    (∀ s ∈ unique_urls df,
        startsWithHttp (pyStrip s) = true ∧ 6 < s.length ∧ s ≠ "") ∧
    (unique_urls df).Nodup ∧
    unique_urls df = firstOcc ((find_urls_in_df df).filter lenFilter) := by
  have heq : unique_urls df = firstOcc ((find_urls_in_df df).filter lenFilter) :=
    dictFromKeys_eq_firstOcc _
  refine ⟨?_, ?_, heq⟩
  · intro s hs
    rw [heq] at hs
    have hmem : s ∈ (find_urls_in_df df).filter lenFilter :=
      (firstOcc_sublist _).subset hs
    have hraw : s ∈ find_urls_in_df df := List.mem_of_mem_filter hmem
    obtain ⟨hhttp, v, hv⟩ := mem_find_urls_startsWithHttp hraw
    have hstrip : pyStrip s = s := by rw [hv, pyStrip_idem]
    have hlen := length_of_startsWithHttp hhttp
    exact ⟨by rw [hstrip]; exact hhttp, hlen.1, hlen.2⟩
  · rw [heq]
    exact firstOcc_nodup _

/-! Sniffer lemmas. -/

/-- C4: detect_extension resolves by exactly the ordered chain: magic-byte
signature, then declared content-type stripped of parameters and mapped
through the media-type table, then the URL path extension when present and
at most six characters including the dot (dot stripped), then the literal
jpg — the first populated step wins. -/
theorem detect_extension_chain (content : List Nat) (ct url : String) :
    detect_extension content ct url = detectExtensionSpec content ct url := by
  unfold detect_extension detectExtensionSpec
  cases hft : filetypeGuess content with
  | some e => simp [chainResolve]
  | none =>
    simp only [chainResolve]
    by_cases hct : ct != ""
    · cases hmg : mimetypesGuessExtension
          (pyStrip (String.mk (ct.data.takeWhile (fun c => c != ';')))) with
      | some g =>
        simp [hct, hmg, ctGuessSpec, chainResolve]
      | none =>
        simp only [hct, if_true, hmg, ctGuessSpec, Option.map_none', chainResolve,
          urlGuessSpec]
        by_cases hcond : (splitextExt (urlparsePath url).data != [] &&
            decide ((splitextExt (urlparsePath url).data).length ≤ 6)) = true
        · simp [hcond, chainResolve]
        · simp only [Bool.not_eq_true] at hcond
          simp [hcond, chainResolve]
    · simp only [Bool.not_eq_true] at hct
      have hct0 : ct = "" := by simpa using hct
      subst hct0
      have hmg0 : mimetypesGuessExtension
          (pyStrip (String.mk (("".data).takeWhile (fun c => c != ';')))) = none := by decide
      simp only [ctGuessSpec, hmg0, Option.map_none', chainResolve, urlGuessSpec]
      simp only [bne_self_eq_false, Bool.false_eq_true, if_false]
      by_cases hcond : (splitextExt (urlparsePath url).data != [] &&
          decide ((splitextExt (urlparsePath url).data).length ≤ 6)) = true
      · simp [hcond, chainResolve]
      · simp only [Bool.not_eq_true] at hcond
        simp [hcond, chainResolve]

theorem headIsDot_dropWhileDot (l : List Char) :
    headIsDot (String.mk (l.dropWhile (fun c => c == '.'))) = false := by
  cases h : l.dropWhile (fun c => c == '.') with
  | nil => simp [headIsDot, h]
  | cons c rest =>
    have hc := head?_dropWhile_false (p := fun c => c == '.') (l := l) (a := c)
      (by rw [h]; rfl)
    simp only [headIsDot, h]
    simpa using hc

theorem filetypeGuess_no_dot {content : List Nat} {e : String}
    (h : filetypeGuess content = some e) : headIsDot e = false := by
  unfold filetypeGuess at h
  split at h
  · cases h; decide
  · split at h
    · cases h; decide
    · split at h
      · cases h; decide
      · cases h

/-- C3 counterexample: on empty content, absent content-type and a URL whose
path ends in a bare dot, detect_extension returns the empty string, which is
not a non-empty extension; hence the claimed totality property (non-empty,
all-lowercase, no leading dot) fails as stated. -/
theorem sniffer_empty_result_cex : detect_extension [] "" "http://a/x." = "" := by decide

/-- C3 amended: detect_extension always returns a string and that string
never begins with a dot; non-emptiness and lowercase-ness do not hold in
general (the URL-path step can produce the empty string or an uppercase
extension). -/
theorem detect_extension_no_leading_dot (content : List Nat) (ct url : String) :
    headIsDot (detect_extension content ct url) = false := by
  unfold detect_extension
  cases hft : filetypeGuess content with
  | some e => exact filetypeGuess_no_dot hft
  | none =>
    cases hmg : (if ct != "" then
        mimetypesGuessExtension (pyStrip (String.mk (ct.data.takeWhile (fun c => c != ';'))))
      else none) with
    | some g =>
      simp only []
      exact headIsDot_dropWhileDot g.data
    | none =>
      simp only []
      by_cases hcond : (splitextExt (urlparsePath url).data != [] &&
          decide ((splitextExt (urlparsePath url).data).length ≤ 6)) = true
      · simp only [hcond, if_true]
        exact headIsDot_dropWhileDot _
      · simp only [Bool.not_eq_true] at hcond
        simp only [hcond, Bool.false_eq_true, if_false]
        decide

/-! Fetcher lemmas. -/

theorem range_succ_map_half (attempt r : Nat) :
    (List.range (r + 1)).map (fun j => ((1 : ℚ) / 2) * (((attempt + j : ℕ) : ℚ) + 1)) =
      ((1 : ℚ) / 2) * ((attempt : ℚ) + 1) ::
        (List.range r).map (fun j => ((1 : ℚ) / 2) * (((attempt + 1 + j : ℕ) : ℚ) + 1)) := by
  rw [List.range_succ_eq_map, List.map_cons, List.map_map]
  congr 1
  simp only [List.map_eq_map_iff, List.mem_range, Function.comp_apply]
  intro a _
  push_cast
  ring

theorem downloadFrom_resp200 (oracle : Nat → AttemptOutcome) (url dest folder : String)
    (attempt r : Nat) (le : Option String) (content : List Nat) (ctype : String)
    (h : oracle attempt = AttemptOutcome.resp 200 content ctype) :
    downloadFrom oracle url dest folder attempt (r + 1) le =
      (⟨true, some (dest ++ "." ++ detect_extension content ctype url), none⟩,
       ⟨1, [(pyPathJoin folder (dest ++ "." ++ detect_extension content ctype url), content)],
        []⟩) := by
  rw [downloadFrom, h]
  rfl

theorem downloadFrom_respFail (oracle : Nat → AttemptOutcome) (url dest folder : String)
    (attempt r : Nat) (le : Option String) (status : Nat) (content : List Nat) (ctype : String)
    (h : oracle attempt = AttemptOutcome.resp status content ctype) (hs : ¬ status = 200) :
    downloadFrom oracle url dest folder attempt (r + 1) le =
      ((downloadFrom oracle url dest folder (attempt + 1) r
          (some ("HTTP " ++ toString status))).1,
       ⟨(downloadFrom oracle url dest folder (attempt + 1) r
           (some ("HTTP " ++ toString status))).2.attempts + 1,
        (downloadFrom oracle url dest folder (attempt + 1) r
           (some ("HTTP " ++ toString status))).2.writes,
        ((1 : ℚ) / 2) * ((attempt : ℚ) + 1) ::
          (downloadFrom oracle url dest folder (attempt + 1) r
             (some ("HTTP " ++ toString status))).2.sleeps⟩) := by
  rw [downloadFrom, h]
  simp [hs]

theorem downloadFrom_exc (oracle : Nat → AttemptOutcome) (url dest folder : String)
    (attempt r : Nat) (le : Option String) (m : String)
    (h : oracle attempt = AttemptOutcome.exc m) :
    downloadFrom oracle url dest folder attempt (r + 1) le =
      ((downloadFrom oracle url dest folder (attempt + 1) r (some m)).1,
       ⟨(downloadFrom oracle url dest folder (attempt + 1) r (some m)).2.attempts + 1,
        (downloadFrom oracle url dest folder (attempt + 1) r (some m)).2.writes,
        ((1 : ℚ) / 2) * ((attempt : ℚ) + 1) ::
          (downloadFrom oracle url dest folder (attempt + 1) r (some m)).2.sleeps⟩) := by
  rw [downloadFrom, h]

theorem downloadFrom_all_fail (oracle : Nat → AttemptOutcome) (url dest folder : String) :
    ∀ (r attempt : Nat) (le : Option String),
      (∀ k, attempt ≤ k → k ≤ attempt + r → attemptFailsB (oracle k) = true) →
      (downloadFrom oracle url dest folder attempt (r + 1) le).2.attempts = r + 1 ∧
      (downloadFrom oracle url dest folder attempt (r + 1) le).1.success = false ∧
      (downloadFrom oracle url dest folder attempt (r + 1) le).1.error =
        some (failMsg (oracle (attempt + r))) := by
  intro r
  induction r with
  | zero =>
    intro attempt le h
    have hf := h attempt le_rfl (by omega)
    cases ho : oracle attempt with
    | resp status content ctype =>
      rw [ho] at hf
      have hs : ¬ status = 200 := by simpa [attemptFailsB] using hf
      simp [downloadFrom, ho, hs, failMsg]
    | exc m =>
      simp [downloadFrom, ho, failMsg]
  | succ r ih =>
    intro attempt le h
    have hf := h attempt le_rfl (by omega)
    have hshift : ∀ k, attempt + 1 ≤ k → k ≤ attempt + 1 + r → attemptFailsB (oracle k) = true :=
      fun k h1 h2 => h k (by omega) (by omega)
    have harith : attempt + 1 + r = attempt + (r + 1) := by omega
    cases ho : oracle attempt with
    | resp status content ctype =>
      rw [ho] at hf
      have hs : ¬ status = 200 := by simpa [attemptFailsB] using hf
      obtain ⟨h1, h2, h3⟩ := ih (attempt + 1) (some ("HTTP " ++ toString status)) hshift
      rw [harith] at h3
      rw [downloadFrom_respFail oracle url dest folder attempt (r + 1) le status content ctype ho hs]
      exact ⟨by simp [h1], by simpa using h2, by simpa using h3⟩
    | exc m =>
      obtain ⟨h1, h2, h3⟩ := ih (attempt + 1) (some m) hshift
      rw [harith] at h3
      rw [downloadFrom_exc oracle url dest folder attempt (r + 1) le m ho]
      exact ⟨by simp [h1], by simpa using h2, by simpa using h3⟩

/-- C5: when the oracle fails every one of the R + 1 allowed attempts, the
fetcher performs exactly R + 1 GET attempts and returns failure carrying the
error reason of the last attempt, attempt number R. -/
theorem download_one_retry_exhaustion (oracle : Nat → AttemptOutcome)
    (url dest folder : String) (R : Nat)
    (h : ∀ k, k ≤ R → attemptFailsB (oracle k) = true) :
    (download_one oracle url dest folder R).2.attempts = R + 1 ∧
    (download_one oracle url dest folder R).1.success = false ∧
    (download_one oracle url dest folder R).1.error = some (failMsg (oracle R)) := by
  have hh : ∀ k, 0 ≤ k → k ≤ 0 + R → attemptFailsB (oracle k) = true :=
    fun k _ hk => h k (by omega)
  obtain ⟨h1, h2, h3⟩ := downloadFrom_all_fail oracle url dest folder R 0 none hh
  rw [Nat.zero_add] at h3
  exact ⟨h1, h2, h3⟩

/-- C5 witness: with max_retries = 2 and an oracle raising an exception on
every attempt, exactly 3 attempts occur and the error is the third
attempt's message. -/
theorem download_one_retry_exhaustion_witness :
    (download_one oracleAllFail "u" "d" "f" 2).2.attempts = 3 ∧
    (download_one oracleAllFail "u" "d" "f" 2).1.success = false ∧
    (download_one oracleAllFail "u" "d" "f" 2).1.error = some "boom 2" := by
  have h := download_one_retry_exhaustion oracleAllFail "u" "d" "f" 2 (fun k _ => rfl)
  exact ⟨h.1, h.2.1, h.2.2.trans (by decide)⟩

theorem downloadFrom_sleeps (oracle : Nat → AttemptOutcome) (url dest folder : String) :
    ∀ (n attempt : Nat) (le : Option String),
      (downloadFrom oracle url dest folder attempt n le).2.sleeps =
        (List.range (failCount oracle attempt n)).map
          (fun j => ((1 : ℚ) / 2) * (((attempt + j : ℕ) : ℚ) + 1)) := by
  intro n
  induction n with
  | zero => intro attempt le; simp [downloadFrom, failCount]
  | succ r ih =>
    intro attempt le
    cases ho : oracle attempt with
    | resp status content ctype =>
      by_cases hs : status = 200
      · subst hs
        rw [downloadFrom_resp200 oracle url dest folder attempt r le content ctype ho]
        have hfc : failCount oracle attempt (r + 1) = 0 := by
          simp [failCount, ho, attemptFailsB]
        rw [hfc]
        simp
      · rw [downloadFrom_respFail oracle url dest folder attempt r le status content ctype ho hs]
        have hfc : failCount oracle attempt (r + 1) = failCount oracle (attempt + 1) r + 1 := by
          simp [failCount, ho, attemptFailsB, hs]
        rw [hfc]
        simp only []
        rw [ih (attempt + 1) (some ("HTTP " ++ toString status)), range_succ_map_half]
    | exc m =>
      rw [downloadFrom_exc oracle url dest folder attempt r le m ho]
      have hfc : failCount oracle attempt (r + 1) = failCount oracle (attempt + 1) r + 1 := by
        simp [failCount, ho, attemptFailsB]
      rw [hfc]
      simp only []
      rw [ih (attempt + 1) (some m), range_succ_map_half]

/-- C6 counterexample: with max_retries = 0 and a single failing attempt —
the final allowed attempt — the fetcher still sleeps 0.5 seconds, so the
claim that no backoff sleep occurs once the final allowed attempt has
failed is false. -/
theorem backoff_after_final_failure_cex :
    (download_one oracleAllFail "u" "d" "f" 0).2.sleeps = [(1 : ℚ) / 2] := by
  show ((1 : ℚ) / 2) * (((0 : ℕ) : ℚ) + 1) :: [] = [(1 : ℚ) / 2]
  norm_num

/-- C6 amended: after the failed 0-based attempt number k the fetcher sleeps
exactly 0.5 * (k + 1) seconds, and this sleep happens after every failed
attempt of the executed failing streak — including the final allowed attempt
when it also fails. -/
theorem download_one_sleep_schedule (oracle : Nat → AttemptOutcome)
    (url dest folder : String) (R : Nat) :
    (download_one oracle url dest folder R).2.sleeps =
      (List.range (failCount oracle 0 (R + 1))).map
        (fun k => ((1 : ℚ) / 2) * (((k : ℕ) : ℚ) + 1)) := by
  rw [download_one, downloadFrom_sleeps oracle url dest folder (R + 1) 0 none]
  simp

theorem downloadFrom_writes (oracle : Nat → AttemptOutcome) (url dest folder : String) :
    ∀ (n attempt : Nat) (le : Option String),
      ((downloadFrom oracle url dest folder attempt n le).1.success = true →
        ∃ k content ctype,
          attempt ≤ k ∧ k < attempt + n ∧
          oracle k = AttemptOutcome.resp 200 content ctype ∧
          (downloadFrom oracle url dest folder attempt n le).1.finalName =
            some (dest ++ "." ++ detect_extension content ctype url) ∧
          (downloadFrom oracle url dest folder attempt n le).2.writes =
            [(pyPathJoin folder (dest ++ "." ++ detect_extension content ctype url),
              content)]) ∧
      ((downloadFrom oracle url dest folder attempt n le).1.success = false →
        (downloadFrom oracle url dest folder attempt n le).2.writes = []) := by
  intro n
  induction n with
  | zero =>
    intro attempt le
    constructor
    · intro hsucc
      simp [downloadFrom] at hsucc
    · intro _
      simp [downloadFrom]
  | succ r ih =>
    intro attempt le
    cases ho : oracle attempt with
    | resp status content ctype =>
      by_cases hs : status = 200
      · subst hs
        rw [downloadFrom_resp200 oracle url dest folder attempt r le content ctype ho]
        constructor
        · intro _
          exact ⟨attempt, content, ctype, le_rfl, by omega, ho, rfl, rfl⟩
        · intro hfail
          simp at hfail
      · rw [downloadFrom_respFail oracle url dest folder attempt r le status content ctype ho hs]
        obtain ⟨ihs, ihf⟩ := ih (attempt + 1) (some ("HTTP " ++ toString status))
        constructor
        · intro hsucc
          obtain ⟨k, c, ct, hk1, hk2, hk3, hk4, hk5⟩ := ihs hsucc
          exact ⟨k, c, ct, by omega, by omega, hk3, hk4, hk5⟩
        · intro hfail
          simpa using ihf hfail
    | exc m =>
      rw [downloadFrom_exc oracle url dest folder attempt r le m ho]
      obtain ⟨ihs, ihf⟩ := ih (attempt + 1) (some m)
      constructor
      · intro hsucc
        obtain ⟨k, c, ct, hk1, hk2, hk3, hk4, hk5⟩ := ihs hsucc
        exact ⟨k, c, ct, by omega, by omega, hk3, hk4, hk5⟩
      · intro hfail
        simpa using ihf hfail

/-- C7: when download_one returns success it has written exactly one file,
named base_name dot extension inside the destination folder, whose content
is the full body of the 200 response of the succeeding attempt; when it
returns failure it has written nothing. -/
theorem download_one_writes (oracle : Nat → AttemptOutcome) (url dest folder : String)
    (R : Nat) :
    ((download_one oracle url dest folder R).1.success = true →
      ∃ k content ctype,
        k ≤ R ∧ oracle k = AttemptOutcome.resp 200 content ctype ∧
        (download_one oracle url dest folder R).1.finalName =
          some (dest ++ "." ++ detect_extension content ctype url) ∧
        (download_one oracle url dest folder R).2.writes =
          [(pyPathJoin folder (dest ++ "." ++ detect_extension content ctype url),
            content)]) ∧
    ((download_one oracle url dest folder R).1.success = false →
      (download_one oracle url dest folder R).2.writes = []) := by
  obtain ⟨hsucc, hfail⟩ := downloadFrom_writes oracle url dest folder (R + 1) 0 none
  constructor
  · intro h
    obtain ⟨k, c, ct, _, hk2, hk3, hk4, hk5⟩ := hsucc h
    exact ⟨k, c, ct, by omega, hk3, hk4, hk5⟩
  · exact hfail

/-- C7 witness: with an oracle that answers 200 with a PNG body, the
success branch of download_one writes exactly the sniffed file into the
destination folder; instantiated at concrete inputs. -/
theorem download_one_writes_witness :
    ∃ k content ctype,
      k ≤ 2 ∧ oracleOk k = AttemptOutcome.resp 200 content ctype ∧
      (download_one oracleOk "http://a/b" "bill 1" "imgs" 2).1.finalName =
        some ("bill 1" ++ "." ++ detect_extension content ctype "http://a/b") ∧
      (download_one oracleOk "http://a/b" "bill 1" "imgs" 2).2.writes =
        [(pyPathJoin "imgs" ("bill 1" ++ "." ++ detect_extension content ctype "http://a/b"),
          content)] :=
  (download_one_writes oracleOk "http://a/b" "bill 1" "imgs" 2).1 rfl

/-! Coordinator lemmas. -/

theorem dispatchLoop_zip :
    ∀ (urls : List String) (c : Int),
      dispatchLoop urls c =
        urls.zip ((List.range urls.length).map
          (fun i : Nat => "bill " ++ toString (c + 1 + (i : Int)))) := by
  intro urls
  induction urls with
  | nil => intro c; simp [dispatchLoop]
  | cons u us ih =>
    intro c
    rw [dispatchLoop, List.length_cons, List.range_succ_eq_map, List.map_cons,
      List.map_map, List.zip_cons_cons]
    congr 1
    · norm_num
    · rw [ih (c + 1)]
      congr 1
      apply List.map_congr_left
      intro i _
      simp only [Function.comp_apply]
      have harith : c + 1 + ((i + 1 : ℕ) : Int) = c + 1 + 1 + (i : Int) := by
        push_cast
        ring
      rw [harith]

/-- C1: for a URL list of length M and start index S at least 1, the
coordinator pairs the URLs, in strict input order, with the destination
base names bill S, bill S+1, ..., bill S+M-1; and for any completion order
the collected outcome of dispatch index i is built from exactly that pair,
so the assignment does not depend on the completion order. -/
theorem coordinator_assigns_names (urls : List String) (S : Int) (h : 1 ≤ S) :
    dispatchAssignments urls S = urls.zip (billNames S urls.length) ∧
    ∀ (perm : List Nat) (fetch : String → String → FetchResult),
      runCollect urls S perm fetch =
        perm.filterMap (fun i =>
          ((urls.zip (billNames S urls.length)).get? i).map
            (fun p => mkOutcome p.1 (fetch p.1 p.2))) := by
  have heq : dispatchAssignments urls S = urls.zip (billNames S urls.length) := by
    rw [dispatchAssignments, dispatchLoop_zip, billNames]
    congr 1
    apply List.map_congr_left
    intro i _
    have harith : S - 1 + 1 + (i : Int) = S + (i : Int) := by ring
    rw [harith]
  exact ⟨heq, fun perm fetch => by rw [runCollect, heq]⟩

/-- C1 witness: two URLs and start index 1 give bill 1 and bill 2 in input
order. -/
theorem coordinator_assigns_names_witness :
    dispatchAssignments ["http://a", "http://b"] 1 =
      [("http://a", "bill 1"), ("http://b", "bill 2")] := by
  have h := coordinator_assigns_names ["http://a", "http://b"] 1 (by norm_num)
  exact h.1.trans (by decide)

theorem dispatchLoop_map_fst :
    ∀ (urls : List String) (c : Int), (dispatchLoop urls c).map Prod.fst = urls := by
  intro urls
  induction urls with
  | nil => intro c; simp [dispatchLoop]
  | cons u us ih =>
    intro c
    rw [dispatchLoop, List.map_cons, ih]

theorem dispatchAssignments_map_fst (urls : List String) (S : Int) :
    (dispatchAssignments urls S).map Prod.fst = urls :=
  dispatchLoop_map_fst urls (S - 1)

theorem mkOutcome_url (u : String) (r : FetchResult) : (mkOutcome u r).url = u := by
  rw [mkOutcome]
  split <;> rfl

theorem runCollect_map_url (urls : List String) (S : Int) (perm : List Nat)
    (fetch : String → String → FetchResult) :
    (runCollect urls S perm fetch).map OutcomeRec.url =
      perm.filterMap (fun i => urls.get? i) := by
  have hfun : ∀ i, (((dispatchAssignments urls S).get? i).map
      (fun p => mkOutcome p.1 (fetch p.1 p.2))).map OutcomeRec.url = urls.get? i := by
    intro i
    rw [Option.map_map]
    have hcomp : (OutcomeRec.url ∘ fun p : String × String => mkOutcome p.1 (fetch p.1 p.2)) =
        Prod.fst := by
      funext p
      simp [Function.comp, mkOutcome_url]
    rw [hcomp]
    have h2 := dispatchAssignments_map_fst urls S
    rw [← List.get?_map, h2]
  rw [runCollect, List.map_filterMap]
  simp only [hfun]

theorem filterMap_get?_range {α : Type} :
    ∀ l : List α, (List.range l.length).filterMap l.get? = l := by
  intro l
  induction l with
  | nil => simp
  | cons x xs ih =>
    rw [List.length_cons, List.range_succ_eq_map, List.filterMap_cons, List.filterMap_map]
    have hcomp : (fun i => (x :: xs).get? i) ∘ Nat.succ = fun i => xs.get? i := by
      funext i
      rfl
    rw [hcomp, ih]
    rfl

theorem runCollect_url_perm (urls : List String) (S : Int) (perm : List Nat)
    (fetch : String → String → FetchResult)
    (hP : perm.Perm (List.range urls.length)) :
    ((runCollect urls S perm fetch).map OutcomeRec.url).Perm urls := by
  rw [runCollect_map_url]
  have h := hP.filterMap (fun i => urls.get? i)
  rwa [filterMap_get?_range] at h

theorem length_filter_ok_split (rs : List OutcomeRec) :
    (succResults rs).length + (failResults rs).length = rs.length := by
  rw [succResults, failResults]
  exact (@List.length_eq_length_filter_add OutcomeRec rs (fun r => r.ok)).symm

theorem count_url_split (rs : List OutcomeRec) (u : String) :
    ((succResults rs).map OutcomeRec.url).count u +
      ((failResults rs).map OutcomeRec.url).count u =
        (rs.map OutcomeRec.url).count u := by
  induction rs with
  | nil => simp [succResults, failResults]
  | cons r rs ih =>
    simp only [succResults, failResults] at ih ⊢
    by_cases hok : r.ok = true
    · simp only [List.filter_cons, hok, if_true, Bool.not_true, Bool.false_eq_true, if_false,
        List.map_cons, List.count_cons]
      omega
    · simp only [Bool.not_eq_true] at hok
      simp only [List.filter_cons, hok, Bool.false_eq_true, if_false, Bool.not_false, if_true,
        List.map_cons, List.count_cons]
      omega

/-- C8: for a completed run over a deduplicated URL list in which the
completion order is a permutation of the dispatch indices, the number of
success outcomes plus the number of failure outcomes equals the list's
length, and each URL of the list occurs in exactly one of the two
partitions. -/
theorem run_partition (urls : List String) (S : Int) (perm : List Nat)
    (fetch : String → String → FetchResult)
    (hN : urls.Nodup) (hP : perm.Perm (List.range urls.length)) :
    (succResults (runCollect urls S perm fetch)).length +
      (failResults (runCollect urls S perm fetch)).length = urls.length ∧
    ∀ u ∈ urls,
      ((succResults (runCollect urls S perm fetch)).map OutcomeRec.url).count u +
        ((failResults (runCollect urls S perm fetch)).map OutcomeRec.url).count u = 1 := by
  have hperm := runCollect_url_perm urls S perm fetch hP
  constructor
  · rw [length_filter_ok_split]
    have hlen : (runCollect urls S perm fetch).length =
        ((runCollect urls S perm fetch).map OutcomeRec.url).length :=
      (List.length_map _ _).symm
    rw [hlen, hperm.length_eq]
  · intro u hu
    rw [count_url_split, hperm.count_eq]
    exact List.count_eq_one_of_mem hN hu

/-- C8 witness: a two-URL run collected in reversed completion order with
every fetch failing has 0 + 2 outcomes and each URL in exactly one
partition. -/
theorem run_partition_witness :
    (succResults (runCollect ["u", "v"] 1 [1, 0] fetchFail)).length +
      (failResults (runCollect ["u", "v"] 1 [1, 0] fetchFail)).length = 2 ∧
    ((succResults (runCollect ["u", "v"] 1 [1, 0] fetchFail)).map OutcomeRec.url).count "u" +
      ((failResults (runCollect ["u", "v"] 1 [1, 0] fetchFail)).map OutcomeRec.url).count "u" = 1 := by
  have h := run_partition ["u", "v"] 1 [1, 0] fetchFail (by decide) (by decide)
  exact ⟨h.1, h.2 "u" (by decide)⟩

end KoboApp
